import Mathlib

/-!
Shallow embedding of the evidence-gathering and synthesis pipeline of the
2025 starter kit repository, and proofs about the behaviour its
specification describes.  The embedded code comes from `src/main.py`,
`src/llm_client.py`, `src/modules/segment_retriever.py`,
`src/modules/query_generator.py`, `src/modules/report_generator.py` and
`src/produce_run.py`.  LLM calls, the Lucene searcher and the neural
re-ranker are external services; they are modelled as oracle parameters
(functions supplied to the embedded control flow), while every piece of
control flow, validation and arithmetic written in the repository itself is
translated directly.
-/

/-! ### Evidence loop (`src/main.py`, lines 41-76)

`main` runs, per article, `iteration_counter = 1` and then
`while iteration_counter < max_query_iterations + 1:`; the body executes one
round (query generation, retrieval, evaluation), then increments the counter
and breaks when the round's sufficiency verdict is true.  `evidenceGo` is
that loop with the verdicts supplied as an oracle `v : Nat → Bool`
(`v i` is the verdict `has_sufficient_information` of round `i`); the
`remaining` fuel argument counts the loop-guard iterations still allowed,
which is exactly `maxIter + 1 - counter`.  The function returns the number
of executed rounds, i.e. the final `iteration_counter - 1`. -/

def evidenceGo (v : Nat → Bool) : (remaining : Nat) → (counter : Nat) → Nat
  | 0, counter => counter - 1
  | r + 1, counter => if v counter then counter else evidenceGo v r (counter + 1)

/-- Number of rounds executed by the evidence loop of `main` for verdict
oracle `v` and round cap `maxIter` (`max_query_iterations`, set to 5 in
`src/main.py` line 15).  The loop starts at `counter = 1`, so exactly
`maxIter` guard iterations are available. -/

def evidenceRounds (v : Nat → Bool) (maxIter : Nat) : Nat :=
  evidenceGo v maxIter 1

/-! ### Query generation (`src/modules/query_generator.py`, lines 100-121)

`QueryGenerator.generate_query` calls `generate_structured`, turns the
response into a list of `(query, rationale)` pairs, raises a `ValueError`
when fewer than 5 were produced, and otherwise returns the full list — the
list is returned as-is even when it has more than 5 entries.  The structured
generation call is modelled as its result `gen` (`Except.error` when the
call raised).  Any raised error is re-wrapped as a `RuntimeError` by the
surrounding `except` block; errors are modelled as `Except.error ()`. -/

def generate_query (gen : Except Unit (List (String × String))) :
    Except Unit (List (String × String)) :=
  match gen with
  | Except.error _ => Except.error ()
  | Except.ok qs => if qs.length < 5 then Except.error () else Except.ok qs

/-- Recording of one round's queries by `main` (`src/main.py` lines 51-58):
one tracking entry keyed `query_{i+1}` is stored per returned query, so the
number of recorded queries equals the length of the returned list. -/

def recordRound (queries : List (String × String)) :
    List (String × (String × String)) :=
  queries.enum.map (fun p => ("query_" ++ toString (p.1 + 1), p.2))

/-! ### Hybrid retrieval and curation (`src/modules/segment_retriever.py`)

`SegmentRetriever.search` (lines 23-142): BM25+RM3 lexical hits are filtered
by `hit.docid.split('#')[0] not in exclude_docids`, re-ranked by a neural
cross-encoder, sorted by score and truncated to 100; the top 10 are shown to
an LLM curation prompt; the returned ids are then "validated".  Crucially,
line 48 computes `provided_ids_set = set(top_segment_ids)` BEFORE the loop
at lines 50-55 populates `top_segment_ids`, so the validation set is the
empty set in every call.  The Lucene searcher and the re-ranker are
external; the embedding takes the list of hit ids and an arbitrary
re-ranking function, and the curator response `llmIds` as an oracle. -/

/-- `docid.split('#')[0]`: the document id of a segment id, i.e. everything
before the first `#` (the whole string when no `#` occurs). -/

def docRoot (s : String) : String :=
  String.mk (s.toList.takeWhile (fun c => !(c = '#')))

/-- The exclusion filter of lines 26-38: keep a hit iff the root of its
docid is not in `exclude_docids`. -/

def searchFilter (hitIds excludeDocids : List String) : List String :=
  hitIds.filter (fun h => !(excludeDocids.contains (docRoot h)))

/-- The validation loop of lines 116-128: for each id in the curator
response, keep it if it is in `provided` (the `provided_ids_set` of line
48); otherwise append the first id of `topIds` not already selected, if any
remains, else continue. -/

def valLoop (sel : List String) (topIds provided acc : List String) : List String :=
  match sel with
  | [] => acc
  | s :: rest =>
      if provided.contains s then valLoop rest topIds provided (acc ++ [s])
      else
        match topIds.filter (fun v => !(acc.contains v)) with
        | [] => valLoop rest topIds provided acc
        | v :: _ => valLoop rest topIds provided (acc ++ [v])

/-- Lines 46-142 given the re-ranked, truncated result id list `resultIds`
(in re-ranked order) and the curator response `llmIds`: `topIds` is the
shown candidate list (`selector_top_k = 10`); `provided` is the empty set
computed at line 48 (before `top_segment_ids` is populated); when
validation leaves nothing, line 133 forces `[top_segment_ids[0]]`, an
`IndexError` (modelled as `Except.error ()`) when there are no candidates;
finally lines 136-140 keep the results whose id was validated, in re-ranked
order. -/

def searchCurate (resultIds llmIds : List String) : Except Unit (List String) :=
  let topIds := resultIds.take 10
  let provided : List String := []
  let validated := valLoop llmIds topIds provided []
  match validated with
  | [] =>
      match topIds with
      | [] => Except.error ()
      | t :: _ => Except.ok (resultIds.filter (fun s => ([t] : List String).contains s))
  | v :: vs => Except.ok (resultIds.filter (fun s => ((v :: vs) : List String).contains s))

/-- The whole of `search` around the external stages: exclusion filter, an
arbitrary re-ranking `rerank` of the filtered hits (the cross-encoder sort
of lines 39-43), truncation to 100, then curation/validation.  On success
it returns the pair `(results, llm_selected_results)` of line 142,
projected to segment ids. -/

def searchResult (hitIds excludeDocids llmIds : List String)
    (rerank : List String → List String) : Except Unit (List String × List String) :=
  let resultIds := (rerank (searchFilter hitIds excludeDocids)).take 100
  match searchCurate resultIds llmIds with
  | Except.error e => Except.error e
  | Except.ok curated => Except.ok (resultIds, curated)

/-! ### Report generation: citation validation (`src/modules/report_generator.py`)

All three generation paths validate the structured response with the same
loop: `_generate_single_report` (lines 358-363), `generate_chunk_report`
(lines 178-185) and `polish_combined_report` (lines 243-251) iterate over
the response sentences, and for each citation of each sentence raise a
`ValueError` as soon as one is not in `all_llm_selected_segment_ids`,
otherwise appending `(rationale, sentence_text, citations)` to the returned
report.  None of the three paths checks the number of citations per
sentence — the at-most-3 rule appears only in the prompts.  The structured
response is the oracle input `sents`; the raised error is modelled as
`Except.error` carrying the offending citation. -/

structure RSentence where
  rationale : String
  sentence_text : String
  citations : List String

/-- The common validation loop of the three report-generation paths: error
on the first citation not in `allowed`, else return the sentences as
`(rationale, sentence_text, citations)` triples in response order. -/

def validateSentences (sents : List RSentence) (allowed : List String) :
    Except String (List (String × String × List String)) :=
  match sents with
  | [] => Except.ok []
  | s :: rest =>
      match s.citations.find? (fun c => !(allowed.contains c)) with
      | some c => Except.error c
      | none =>
          match validateSentences rest allowed with
          | Except.error e => Except.error e
          | Except.ok r => Except.ok ((s.rationale, s.sentence_text, s.citations) :: r)

/-! ### Post-hoc compression loop (`src/produce_run.py`, lines 149-181)

`produce_run.main` counts report words with `len(sentence.split())` summed
over sentences; when the total exceeds 250 it runs `for i in range(5)`,
each iteration breaking early if the current count is ≤250, otherwise
calling `report_shortener.shorten_report` — on a `RuntimeError`, or on a
response whose sentence count differs from the original, it restores the
original sentences and breaks.  The shortener call is the oracle
`oracle i cur` (round index and current sentences).  Python `str.split()`
with no argument splits on runs of whitespace and ignores leading/trailing
whitespace, so the word count of a sentence is its number of maximal
non-whitespace runs. -/

/-- ASCII whitespace as treated by Python `str.split()` (space, tab,
newline, carriage return, vertical tab, form feed; Python also strips
other Unicode whitespace, which the evaluated inputs do not contain). -/

def pyIsSpace (c : Char) : Bool :=
  (c = ' ') || (c = '\t') || (c = '\n') || (c = '\r') || (c.toNat = 11) || (c.toNat = 12)

/-- Count maximal non-whitespace runs; `inWord` says whether the previous
character was part of a word. -/

def countWords : List Char → Bool → Nat
  | [], _ => 0
  | c :: rest, inWord =>
      if pyIsSpace c then countWords rest false
      else (if inWord then 0 else 1) + countWords rest true

/-- `len(sentence.split())`. -/

def wordCount (s : String) : Nat := countWords s.toList false

/-- `sum(len(s.split()) for s in sentences)`. -/

def totalWords (ss : List String) : Nat := (ss.map wordCount).sum

/-- The `for i in range(5)` shortening loop of lines 160-175.  `remaining`
is the number of loop iterations left (`5 - i`), `cur` the current
`new_sentences`, `wc` the current `new_word_count`, `rounds` the number of
shortener calls made so far.  An oracle error is the `RuntimeError` branch
(revert and break); a response of the wrong sentence count is the mismatch
branch (revert and break). -/

def shortenGo (oracle : Nat → List String → Except Unit (List String)) (orig : List String) :
    (remaining : Nat) → (i : Nat) → (cur : List String) → (wc : Nat) → (rounds : Nat) →
      List String × Nat
  | 0, _, cur, _, rounds => (cur, rounds)
  | r + 1, i, cur, wc, rounds =>
      if wc ≤ 250 then (cur, rounds)
      else
        match oracle i cur with
        | Except.error _ => (orig, rounds + 1)
        | Except.ok ns =>
            if ns.length ≠ orig.length then (orig, rounds + 1)
            else shortenGo oracle orig r (i + 1) ns (totalWords ns) (rounds + 1)

/-- Lines 149-181: the loop is entered only when the original word count
exceeds 250 (`if original_word_count > 250`); otherwise the sentences are
emitted unchanged with zero shortener calls. -/

def compressReport (oracle : Nat → List String → Except Unit (List String))
    (sentences : List String) : List String × Nat :=
  if 250 < totalWords sentences then
    shortenGo oracle sentences 5 0 sentences (totalWords sentences) 0
  else (sentences, 0)

/-! ### Input truncation (`src/llm_client.py`, lines 157-192)

`SafeLLMClient._truncate_input(messages, max_tokens, attempt)` returns the
messages unchanged on attempt 0; otherwise it extracts the first system and
first user content (empty string when absent), computes the character
budget `(max_tokens - 1500) * 4`, returns the messages unchanged when the
combined length fits, and otherwise truncates: the system prompt from the
middle only when it alone exceeds half the budget, then the user content
from the middle to the remaining budget.  `_truncate_middle` keeps
`max_chars // 2` head characters and `max_chars // 2` (even budget) or
`max_chars // 2 + 1` (odd budget) tail characters around a 26-character
elision marker — so a truncated text has exactly `max_chars + 26`
characters, 26 more than its budget.  Contents are modelled as `List Char`
(Python string slicing); the only call site passes
`self.max_tokens = 50000`, so `max_tokens ≥ 1500` and the `Nat`
subtractions below agree with Python's signed arithmetic. -/

/-- The elision marker inserted by `_truncate_middle` (26 characters). -/

def truncMarker : List Char := "... [middle truncated] ...".toList

/-- Python `text[-k:]`: the last `k` characters — except that `text[-0:]`
is the whole string. -/

def pySuffix (t : List Char) (k : Nat) : List Char :=
  if k = 0 then t else t.drop (t.length - k)

/-- `_truncate_middle(text, max_chars)` (lines 157-164). -/

def truncMiddle (t : List Char) (maxChars : Nat) : List Char :=
  if t.length ≤ maxChars then t
  else
    (t.take (maxChars / 2)) ++ truncMarker ++
      (if maxChars % 2 = 0 then pySuffix t (maxChars / 2) else pySuffix t (maxChars / 2 + 1))

/-- `next((m['content'] for m in messages if m['role'] == role), '')`. -/

def findRole (msgs : List (String × List Char)) (role : String) : List Char :=
  match msgs.find? (fun m => m.1 == role) with
  | some m => m.2
  | none => []

/-- `_truncate_input` (lines 166-192). -/

def truncateInput (msgs : List (String × List Char)) (maxTokens attempt : Nat) :
    List (String × List Char) :=
  if attempt = 0 then msgs
  else
    let sys := findRole msgs "system"
    let usr := findRole msgs "user"
    let maxChars := (maxTokens - 1500) * 4
    if sys.length + usr.length ≤ maxChars then msgs
    else
      let userChars := max 100 (maxChars - sys.length)
      if maxChars / 2 < sys.length then
        let sys2 := truncMiddle sys (maxChars / 2)
        [("system", sys2), ("user", truncMiddle usr (maxChars - sys2.length))]
      else
        [("system", sys), ("user", truncMiddle usr userChars)]

/-- Combined character length of a message list. -/

def totalChars (msgs : List (String × List Char)) : Nat :=
  (msgs.map (fun m => m.2.length)).sum

/-! ### Structured generation with retry (`src/llm_client.py`, lines 194-267)

`generate_structured` runs `for attempt in range(max_retries)`.  Each
attempt either (a) returns a validated model instance, (b) fails to parse
the cleaned response as JSON, (c) parses but fails Pydantic validation, or
(d) raises in the chat call or elsewhere.  For (b)/(c)/(d) on a non-final
attempt the code sleeps `2 ** attempt` and continues; on the final attempt
(`attempt == max_retries - 1`) it raises a `RuntimeError`.  Only the
JSON-parse terminal error (line 246) embeds the last (cleaned) response
content; the validation terminal error (line 258) embeds the Pydantic
exception and the generic terminal error (line 266) embeds the underlying
exception — neither carries the response content.  When `max_retries = 0`
the loop body never runs and the function falls through, returning `None`.
The per-attempt outcome is the oracle `oracle attempt`; `remaining` is the
number of loop iterations left (`max_retries - attempt`). -/

inductive GenOutcome (α : Type) where
  | chatErr : GenOutcome α
  | parseErr : String → GenOutcome α
  | valErr : GenOutcome α
  | ok : α → GenOutcome α
deriving DecidableEq

inductive TermErr where
  | jsonFailure : String → TermErr
  | validationFailure : TermErr
  | generationFailure : TermErr
deriving DecidableEq

inductive GenResult (α : Type) where
  | success : α → List Nat → GenResult α
  | failure : TermErr → List Nat → GenResult α
  | noReturn : GenResult α
deriving DecidableEq

/-- Whether a terminal error's message embeds the last response content:
only the JSON-parse failure of line 246 does. -/

def embedsRawContent : TermErr → Bool
  | TermErr.jsonFailure _ => true
  | _ => false

/-- The terminal error raised when the final attempt has the given
outcome. -/

def errOf {α : Type} : GenOutcome α → TermErr
  | GenOutcome.parseErr c => TermErr.jsonFailure c
  | GenOutcome.valErr => TermErr.validationFailure
  | _ => TermErr.generationFailure

/-- The retry loop; `sleeps` records the `2 ** attempt` backoff sleeps
performed so far, in order. -/

def genGo {α : Type} (oracle : Nat → GenOutcome α) (maxRetries : Nat) :
    (remaining : Nat) → (attempt : Nat) → (sleeps : List Nat) → GenResult α
  | 0, _, _ => GenResult.noReturn
  | r + 1, attempt, sleeps =>
      match oracle attempt with
      | GenOutcome.ok a => GenResult.success a sleeps
      | GenOutcome.parseErr c =>
          if attempt = maxRetries - 1 then GenResult.failure (TermErr.jsonFailure c) sleeps
          else genGo oracle maxRetries r (attempt + 1) (sleeps ++ [2 ^ attempt])
      | GenOutcome.valErr =>
          if attempt = maxRetries - 1 then GenResult.failure TermErr.validationFailure sleeps
          else genGo oracle maxRetries r (attempt + 1) (sleeps ++ [2 ^ attempt])
      | GenOutcome.chatErr =>
          if attempt = maxRetries - 1 then GenResult.failure TermErr.generationFailure sleeps
          else genGo oracle maxRetries r (attempt + 1) (sleeps ++ [2 ^ attempt])

/-- `generate_structured` with `max_retries` attempts. -/

def generate_structured {α : Type} (oracle : Nat → GenOutcome α) (maxRetries : Nat) :
    GenResult α :=
  genGo oracle maxRetries maxRetries 0 []

/-! ### Markdown JSON extraction (`src/llm_client.py`, lines 89-153)

`_extract_json_from_markdown` strips and de-emphasizes the content (lines
106-109), then replaces every `\n` with a space, deletes every `\r` (line
111), collapses whitespace runs (`re.sub(r'\s+', ' ', ...)`) and strips
again (line 113) — and only THEN applies
`re.search(r'(three backticks)json\s*\n(.*?)\n(three backticks)', ...)` (line 115) and the bare
fence search (line 120), both of which demand two literal newline
characters.  The functions below embed the pipeline from line 110 onward
over the arbitrary intermediate content `t` (which ranges over every value
the earlier regex stages can produce, hence over every input), and the two
fence searches as the existence of a decomposition matching the regular
expressions.  The whitespace class of the regexes on this content is the
same ASCII set as `pyIsSpace`. -/

/-- `content.replace('\n', ' ')`. -/

def replaceNLwithSpace (t : List Char) : List Char :=
  t.map (fun c => if c = '\n' then ' ' else c)

/-- `.replace('\r', '')`. -/

def removeCR (t : List Char) : List Char :=
  t.filter (fun c => !(c = '\r'))

/-- `re.sub(r'\s+', ' ', content)`: every maximal whitespace run becomes a
single space. -/

def collapseWs : List Char → List Char
  | [] => []
  | c :: rest =>
      if pyIsSpace c then ' ' :: collapseWs (rest.dropWhile pyIsSpace)
      else c :: collapseWs rest
termination_by t => t.length
decreasing_by
  · simp only [List.length_cons]
    have := (List.dropWhile_suffix pyIsSpace (l := rest)).sublist.length_le
    omega
  · simp

/-- `.strip()` over the ASCII whitespace the evaluated contents contain. -/

def stripWs (t : List Char) : List Char :=
  ((t.dropWhile pyIsSpace).reverse.dropWhile pyIsSpace).reverse

/-- The content on which the fence regexes of lines 115 and 120 are run,
as a function of the content `t` after the emphasis-removal stage of line
109. -/

def contentAtFenceCheck (t : List Char) : List Char :=
  stripWs (collapseWs (removeCR (replaceNLwithSpace t)))

/-- The backtick character. -/

def fenceChar : Char := Char.ofNat 96

/-- The literal `(three backticks)json` of the first fence regex. -/

def fenceJson : List Char := [fenceChar, fenceChar, fenceChar, 'j', 's', 'o', 'n']

/-- The literal three-backtick fence. -/

def fence3 : List Char := [fenceChar, fenceChar, fenceChar]

/-- `re.search(r'(fenceJson)\s*\n(.*?)\n(fence3)', s, re.DOTALL)` succeeds, i.e.
some decomposition of `s` matches the pattern: the opening fence, a
whitespace run, a literal newline, any body, a literal newline, the
closing fence. -/

def fencedJsonMatch (s : List Char) : Prop :=
  ∃ pre ws body post, (∀ c ∈ ws, pyIsSpace c = true) ∧
    s = pre ++ fenceJson ++ ws ++ ['\n'] ++ body ++ ['\n'] ++ fence3 ++ post

/-- `re.search(r'(fence3)\s*\n(.*?)\n(fence3)', s, re.DOTALL)` succeeds. -/

def bareFenceMatch (s : List Char) : Prop :=
  ∃ pre ws body post, (∀ c ∈ ws, pyIsSpace c = true) ∧
    s = pre ++ fence3 ++ ws ++ ['\n'] ++ body ++ ['\n'] ++ fence3 ++ post

/-! ### Theorems -/

theorem evidenceGo_le (v : Nat → Bool) :
    ∀ r c, evidenceGo v r c ≤ c + r - 1 := by
  intro r
  induction r with
  | zero => intro c; simp [evidenceGo]
  | succ r ih =>
      intro c
      simp only [evidenceGo]
      by_cases h : v c = true
      · rw [if_pos h]; omega
      · rw [if_neg (by simp [h])]
        have := ih (c + 1)
        omega

theorem evidenceGo_first_true (v : Nat → Bool) :
    ∀ r c t, c ≤ t → t < c + r → v t = true →
      (∀ j, c ≤ j → j < t → v j = false) → evidenceGo v r c = t := by
  intro r
  induction r with
  | zero => intro c t h1 h2 _ _; omega
  | succ r ih =>
      intro c t h1 h2 ht hbefore
      simp only [evidenceGo]
      rcases Nat.eq_or_lt_of_le h1 with heq | hlt
      · subst heq; simp [ht]
      · have hc : v c = false := hbefore c le_rfl hlt
        simp [hc]
        exact ih (c + 1) t hlt (by omega) ht (fun j hj1 hj2 => hbefore j (by omega) hj2)

theorem evidenceGo_all_false (v : Nat → Bool) :
    ∀ r c, (∀ j, c ≤ j → j < c + r → v j = false) → evidenceGo v r c = c + r - 1 := by
  intro r
  induction r with
  | zero => intro c _; simp [evidenceGo]
  | succ r ih =>
      intro c hall
      have hc : v c = false := hall c le_rfl (by omega)
      simp only [evidenceGo, hc]
      simp
      have := ih (c + 1) (fun j hj1 hj2 => hall j (by omega) (by omega))
      omega

/-- C4: for every per-article evidence-loop run (`src/main.py` lines 41-76),
the number of executed rounds is at most `max_query_iterations`; if every
round verdict up to the cap is false the loop still terminates normally
(returning the full round count — the loop control contains no raise, which
is why the embedded loop is a total function into `Nat`); and if round `t`
is the first round with a true sufficiency verdict, the loop stops at
exactly `t` rounds. -/
theorem C4_evidence_loop_rounds (v : Nat → Bool) (m : Nat) :
    evidenceRounds v m ≤ m ∧
    ((∀ j, 1 ≤ j → j ≤ m → v j = false) → evidenceRounds v m = m) ∧
    (∀ t, 1 ≤ t → t ≤ m → v t = true →
      (∀ j, 1 ≤ j → j < t → v j = false) → evidenceRounds v m = t) := by
  refine ⟨?_, ?_, ?_⟩
  · have := evidenceGo_le v m 1
    simpa [evidenceRounds] using this
  · intro hall
    have := evidenceGo_all_false v m 1 (fun j hj1 hj2 => hall j hj1 (by omega))
    simpa [evidenceRounds] using this
  · intro t h1 h2 ht hbefore
    exact evidenceGo_first_true v m 1 t h1 (by omega) ht hbefore

/-- Witness for C4: with verdicts true exactly at round 2 and cap 5, the
loop executes 2 rounds, and the round count is within the cap. -/
theorem C4_evidence_loop_rounds_witness :
    evidenceRounds (fun i => decide (i = 2)) 5 ≤ 5 ∧
      evidenceRounds (fun i => decide (i = 2)) 5 = 2 :=
  ⟨(C4_evidence_loop_rounds (fun i => decide (i = 2)) 5).1,
   (C4_evidence_loop_rounds (fun i => decide (i = 2)) 5).2.2 2 (by decide) (by decide)
     (by decide) (by intro j hj1 hj2; interval_cases j; rfl)⟩

theorem recordRound_length (queries : List (String × String)) :
    (recordRound queries).length = queries.length := by
  simp [recordRound]

/-- C6 (amended): for every loop round, producing fewer than 5 queries
raises the hard query-count error, and every successfully returned query
list has at least 5 entries — but the code enforces no upper bound, and
`main` records one entry per returned query, so a response with more than 5
queries is returned and recorded in full. -/
theorem C6_query_count (gen : Except Unit (List (String × String))) :
    (∀ qs, gen = Except.ok qs → qs.length < 5 → generate_query gen = Except.error ()) ∧
    (∀ out, generate_query gen = Except.ok out →
      gen = Except.ok out ∧ 5 ≤ out.length ∧ (recordRound out).length = out.length) := by
  constructor
  · intro qs hgen hlt
    subst hgen
    simp [generate_query, hlt]
  · intro out hout
    cases gen with
    | error e => simp [generate_query] at hout
    | ok qs =>
        by_cases hlt : qs.length < 5
        · simp [generate_query, hlt] at hout
        · simp [generate_query, hlt] at hout
          subst hout
          exact ⟨rfl, by omega, recordRound_length qs⟩

/-- Witness for C6: a 4-query response is rejected with the hard error. -/
theorem C6_query_count_witness :
    generate_query (Except.ok [("a", "r"), ("b", "r"), ("c", "r"), ("d", "r")]) =
      Except.error () :=
  (C6_query_count (Except.ok [("a", "r"), ("b", "r"), ("c", "r"), ("d", "r")])).1
    [("a", "r"), ("b", "r"), ("c", "r"), ("d", "r")] rfl (by decide)

/-- Counterexample for C6 as stated: a 6-query response passes the check
unchanged, so 6 (not exactly 5) queries are recorded for the round. -/
theorem C6_counterexample :
    generate_query
        (Except.ok [("a", "r"), ("b", "r"), ("c", "r"), ("d", "r"), ("e", "r"), ("f", "r")]) =
      Except.ok [("a", "r"), ("b", "r"), ("c", "r"), ("d", "r"), ("e", "r"), ("f", "r")] ∧
    (recordRound [("a", "r"), ("b", "r"), ("c", "r"), ("d", "r"), ("e", "r"), ("f", "r")]).length = 6 := by
  constructor
  · rfl
  · rfl

theorem valLoop_nil_top (sel acc : List String) : valLoop sel [] [] acc = acc := by
  induction sel generalizing acc with
  | nil => rfl
  | cons s rest ih => simp [valLoop, ih]

theorem valLoop_subset (sel : List String) (topIds : List String) :
    ∀ acc, ∀ x ∈ valLoop sel topIds [] acc, x ∈ acc ∨ x ∈ topIds := by
  induction sel with
  | nil => intro acc x hx; exact Or.inl hx
  | cons s rest ih =>
      intro acc x hx
      simp only [valLoop] at hx
      rw [if_neg (by simp)] at hx
      rcases hfl : topIds.filter (fun v => !(acc.contains v)) with _ | ⟨v, vs⟩
      · rw [hfl] at hx
        exact ih acc x hx
      · rw [hfl] at hx
        rcases ih (acc ++ [v]) x hx with hmem | hmem
        · rcases List.mem_append.mp hmem with h | h
          · exact Or.inl h
          · right
            have hv : v ∈ topIds.filter (fun v => !(acc.contains v)) := by
              rw [hfl]; exact List.mem_cons_self v vs
            have := List.mem_of_mem_filter hv
            simpa [List.mem_singleton.mp (by simpa using h)] using this
        · exact Or.inr hmem

theorem valLoop_length (sel : List String) (topIds : List String) :
    ∀ acc, (valLoop sel topIds [] acc).length ≤ acc.length + sel.length := by
  induction sel with
  | nil => intro acc; simp [valLoop]
  | cons s rest ih =>
      intro acc
      simp only [valLoop]
      rw [if_neg (by simp)]
      rcases hfl : topIds.filter (fun v => !(acc.contains v)) with _ | ⟨v, vs⟩
      · have := ih acc
        simp only [List.length_cons]
        omega
      · have h2 := ih (acc ++ [v])
        have h3 : (acc ++ [v]).length = acc.length + 1 := by simp
        rw [h3] at h2
        simp only [List.length_cons]
        omega

/-- A list without duplicates all of whose members are equal has at most one
element. -/
theorem length_le_one_of_nodup_of_all_eq {l : List String} (t : String)
    (hnd : l.Nodup) (hall : ∀ x ∈ l, x = t) : l.length ≤ 1 := by
  match l, hnd with
  | [], _ => simp
  | [x], _ => simp
  | x :: y :: rest, hnd =>
      exfalso
      have hx : x = t := hall x (by simp)
      have hy : y = t := hall y (by simp)
      have : x ≠ y := by
        have := List.nodup_cons.mp hnd
        intro h
        exact this.1 (h ▸ List.mem_cons_self y rest)
      exact this (hx.trans hy.symm)

/-- C3 (amended): for every search whose post-exclusion candidate list is
non-empty, the curated subset is returned successfully, is non-empty, and
every member is among the candidates shown to the curator (the top-10
prefix of the re-ranked results); but nothing caps it at 3 elements — its
size is only bounded by the number of ids in the curator response (and by
the 10 shown candidates when the result ids are distinct), since the code
never truncates the response to 3. -/
theorem C3_curated_invariants (resultIds llmIds : List String) (hne : resultIds ≠ []) :
    ∃ out, searchCurate resultIds llmIds = Except.ok out ∧ out ≠ [] ∧
      (∀ s ∈ out, s ∈ resultIds.take 10) ∧
      (resultIds.Nodup → out.length ≤ max 1 llmIds.length) := by
  have htop : resultIds.take 10 ≠ [] := by
    cases resultIds with
    | nil => exact absurd rfl hne
    | cons a t => simp
  rcases hval : valLoop llmIds (resultIds.take 10) [] [] with _ | ⟨v, vs⟩
  · rcases htopc : resultIds.take 10 with _ | ⟨t, ts⟩
    · exact absurd htopc htop
    · refine ⟨resultIds.filter (fun s => ([t] : List String).contains s), ?_, ?_, ?_, ?_⟩
      · simp only [searchCurate]
        rw [hval, htopc]
      · have htm : t ∈ resultIds := List.take_subset 10 resultIds (htopc ▸ List.mem_cons_self t ts)
        have : t ∈ resultIds.filter (fun s => ([t] : List String).contains s) := by
          apply List.mem_filter.mpr
          exact ⟨htm, by simp⟩
        exact List.ne_nil_of_mem this
      · intro s hs
        have hm := List.mem_filter.mp hs
        have hst : s = t := by simpa using hm.2
        rw [hst]
        exact List.mem_cons_self t ts
      · intro hnd
        have hfn : (resultIds.filter (fun s => ([t] : List String).contains s)).Nodup :=
          hnd.filter _
        have hall : ∀ x ∈ resultIds.filter (fun s => ([t] : List String).contains s), x = t := by
          intro x hx
          simpa using (List.mem_filter.mp hx).2
        have := length_le_one_of_nodup_of_all_eq t hfn hall
        omega
  · refine ⟨resultIds.filter (fun s => ((v :: vs) : List String).contains s), ?_, ?_, ?_, ?_⟩
    · simp only [searchCurate]
      rw [hval]
    · have hvtop : v ∈ resultIds.take 10 := by
        rcases valLoop_subset llmIds (resultIds.take 10) [] v
            (hval ▸ List.mem_cons_self v vs) with h | h
        · exact absurd h (List.not_mem_nil v)
        · exact h
      have hvm : v ∈ resultIds := List.take_subset 10 resultIds hvtop
      have : v ∈ resultIds.filter (fun s => ((v :: vs) : List String).contains s) := by
        apply List.mem_filter.mpr
        exact ⟨hvm, by simp⟩
      exact List.ne_nil_of_mem this
    · intro s hs
      have hmem := List.mem_filter.mp hs
      have hsv : s ∈ v :: vs := by simpa using hmem.2
      rcases valLoop_subset llmIds (resultIds.take 10) [] s (hval ▸ hsv) with h | h
      · exact absurd h (List.not_mem_nil s)
      · exact h
    · intro hnd
      have hfn : (resultIds.filter (fun s => ((v :: vs) : List String).contains s)).Nodup :=
        hnd.filter _
      have hsub : (resultIds.filter (fun s => ((v :: vs) : List String).contains s)).toFinset ⊆
          (v :: vs).toFinset := by
        intro x hx
        rw [List.mem_toFinset] at hx ⊢
        simpa using (List.mem_filter.mp hx).2
      have h1 := List.toFinset_card_of_nodup hfn
      have h2 := Finset.card_le_card hsub
      have h3 := (v :: vs).toFinset_card_le
      have h4 : (v :: vs).length ≤ llmIds.length := by
        have := valLoop_length llmIds (resultIds.take 10) []
        rw [hval] at this
        simpa using this
      omega

/-- Witness for C3: for a concrete non-empty candidate list and a curator
response naming one shown candidate, the curated subset is returned, is
non-empty, its members are shown candidates, and its size is within the
bound. -/
theorem C3_curated_invariants_witness :
    ∃ out, searchCurate ["a", "b", "c"] ["b"] = Except.ok out ∧ out ≠ [] ∧
      (∀ s ∈ out, s ∈ (["a", "b", "c"] : List String).take 10) ∧
      ((["a", "b", "c"] : List String).Nodup → out.length ≤ max 1 (["b"] : List String).length) :=
  C3_curated_invariants ["a", "b", "c"] ["b"] (by decide)

/-- Counterexample for C3 as stated: with ten distinct candidates and a
curator response of four ids, the curated subset has four members —
"at most 3" fails. -/
theorem C3_counterexample :
    searchCurate ["a", "b", "c", "d", "e", "f", "g", "h", "i", "j"] ["z", "z", "z", "z"] =
      Except.ok ["a", "b", "c", "d"] ∧
    3 < (["a", "b", "c", "d"] : List String).length := by
  exact ⟨rfl, by decide⟩

/-- C1 (code bug evaluated): the curator returns exactly the shown candidate
"b", yet `search` replaces it by the fallback "a": the validation set of
line 48 is computed before `top_segment_ids` is populated, so it is empty
and every returned id — including valid ones — is treated as a
hallucination. The claim says a returned id present among the shown
candidates is kept. -/
theorem C1_validation_set_bug :
    searchCurate ["a", "b", "c"] ["b"] = Except.ok ["a"] ∧
      "b" ∈ (["a", "b", "c"] : List String).take 10 :=
  ⟨rfl, by decide⟩

/-- C9: when every post-exclusion candidate is filtered out (for example
because each hit's parent document id is excluded), `results` is empty,
`top_segment_ids` stays empty, validation selects nothing, and line 133
evaluates `top_segment_ids[0]` on an empty list — an unhandled
`IndexError`, modelled as `Except.error ()` — instead of returning a pair
of empty lists.  `hperm` states that the external re-ranking stage only
reorders the filtered hits (lines 39-43 sort in place). -/
theorem C9_empty_candidates_index_error (hitIds excludeDocids llmIds : List String)
    (rerank : List String → List String)
    (hperm : (rerank (searchFilter hitIds excludeDocids)).Perm (searchFilter hitIds excludeDocids))
    (hempty : searchFilter hitIds excludeDocids = []) :
    searchResult hitIds excludeDocids llmIds rerank = Except.error () := by
  have hperm2 := hperm
  rw [hempty] at hperm2
  have hrr : rerank ([] : List String) = [] := hperm2.eq_nil
  simp only [searchResult, hempty, hrr, List.take_nil]
  simp only [searchCurate, List.take_nil, valLoop_nil_top]

/-- Witness for C9: a single hit whose parent document id is excluded gives
an empty post-exclusion candidate set, and `search` fails with the modelled
`IndexError`. -/
theorem C9_empty_candidates_index_error_witness :
    searchFilter ["d1#0"] ["d1"] = [] ∧
      searchResult ["d1#0"] ["d1"] [] (fun l => l) = Except.error () :=
  ⟨by decide,
   C9_empty_candidates_index_error ["d1#0"] ["d1"] [] (fun l => l)
     (List.Perm.refl _) (by decide)⟩

theorem validateSentences_ok_of_valid (allowed : List String) :
    ∀ sents : List RSentence, (∀ s ∈ sents, ∀ c ∈ s.citations, c ∈ allowed) →
      validateSentences sents allowed =
        Except.ok (sents.map fun s => (s.rationale, s.sentence_text, s.citations)) := by
  intro sents
  induction sents with
  | nil => intro _; rfl
  | cons s rest ih =>
      intro hall
      have hfind : s.citations.find? (fun c => !(allowed.contains c)) = none := by
        rw [List.find?_eq_none]
        intro c hc
        simp [hall s (List.mem_cons_self s rest) c hc]
      simp only [validateSentences, hfind]
      rw [ih (fun x hx c hc => hall x (List.mem_cons_of_mem s hx) c hc)]
      rfl

theorem validateSentences_ok_mem (allowed : List String) :
    ∀ sents : List RSentence, ∀ out, validateSentences sents allowed = Except.ok out →
      ∀ s ∈ sents, ∀ c ∈ s.citations, c ∈ allowed := by
  intro sents
  induction sents with
  | nil => intro out _ s hs; simp at hs
  | cons s rest ih =>
      intro out h x hx c hc
      rcases hfind : s.citations.find? (fun c => !(allowed.contains c)) with _ | ⟨bad⟩
      · have hvalid : ∀ c ∈ s.citations, c ∈ allowed := by
          intro c hc
          have := List.find?_eq_none.mp hfind c hc
          simpa using this
        rcases List.mem_cons.mp hx with rfl | hx2
        · exact hvalid c hc
        · simp only [validateSentences, hfind] at h
          rcases hrec : validateSentences rest allowed with e | r
          · rw [hrec] at h; simp at h
          · exact ih r hrec x hx2 c hc
      · simp only [validateSentences, hfind] at h
        simp at h
  

theorem validateSentences_error_mem (allowed : List String) :
    ∀ sents : List RSentence, ∀ bad, validateSentences sents allowed = Except.error bad →
      bad ∉ allowed ∧ ∃ s ∈ sents, bad ∈ s.citations := by
  intro sents
  induction sents with
  | nil => intro bad h; simp [validateSentences] at h
  | cons s rest ih =>
      intro bad h
      rcases hfind : s.citations.find? (fun c => !(allowed.contains c)) with _ | ⟨b⟩
      · simp only [validateSentences, hfind] at h
        rcases hrec : validateSentences rest allowed with e | r
        · rw [hrec] at h
          have he : e = bad := by simpa using h
          obtain ⟨h1, s', hs', hc'⟩ := ih e hrec
          subst he
          exact ⟨h1, s', List.mem_cons_of_mem s hs', hc'⟩
        · rw [hrec] at h; simp at h
      · simp only [validateSentences, hfind] at h
        have hb : b = bad := by simpa using h
        have hpb := List.find?_some hfind
        have hmb := List.mem_of_find?_eq_some hfind
        subst hb
        constructor
        · simpa using hpb
        · exact ⟨s, List.mem_cons_self s rest, hmb⟩

/-- C2 (amended): in every report-generation path (single-pass, per-chunk,
polish), a citation outside `allowed_citation_ids` raises the hard
`ValueError` naming it (no silent filtering), and every successfully
returned report's sentences carry only citations from
`allowed_citation_ids`, in response order; but no path bounds the number of
citations per sentence — the "at most 3" rule lives only in the prompts, so
a sentence with 4 allowed citations is returned as-is. -/
theorem C2_citation_validation (sents : List RSentence) (allowed : List String) :
    ((∀ s ∈ sents, ∀ c ∈ s.citations, c ∈ allowed) →
      validateSentences sents allowed =
        Except.ok (sents.map fun s => (s.rationale, s.sentence_text, s.citations))) ∧
    (∀ out, validateSentences sents allowed = Except.ok out →
      ∀ s ∈ sents, ∀ c ∈ s.citations, c ∈ allowed) ∧
    (∀ bad, validateSentences sents allowed = Except.error bad →
      bad ∉ allowed ∧ ∃ s ∈ sents, bad ∈ s.citations) :=
  ⟨validateSentences_ok_of_valid allowed sents,
   validateSentences_ok_mem allowed sents,
   validateSentences_error_mem allowed sents⟩

/-- Witness for C2: a one-sentence response with its only citation allowed
validates successfully, and a response citing an id outside the allowed set
raises the hard error naming it. -/
theorem C2_citation_validation_witness :
    validateSentences [⟨"r", "t", ["a"]⟩] ["a"] = Except.ok [("r", "t", ["a"])] ∧
      validateSentences [⟨"r", "t", ["z"]⟩] ["a"] = Except.error "z" :=
  ⟨(C2_citation_validation [⟨"r", "t", ["a"]⟩] ["a"]).1 (by decide), rfl⟩

/-- Counterexample for C2 as stated: a sentence with four citations, all
allowed, passes validation and is returned with four citations — the
per-sentence cap of 3 is not enforced anywhere. -/
theorem C2_counterexample :
    validateSentences [⟨"r", "t", ["a", "b", "c", "d"]⟩] ["a", "b", "c", "d"] =
      Except.ok [("r", "t", ["a", "b", "c", "d"])] ∧
    3 < (["a", "b", "c", "d"] : List String).length :=
  ⟨rfl, by decide⟩

theorem shortenGo_master (oracle : Nat → List String → Except Unit (List String))
    (orig : List String) :
    ∀ r i cur wc rounds, r + i = 5 → rounds = i → wc = totalWords cur →
      (cur = orig ∨ ∃ k prev, k < i ∧ oracle k prev = Except.ok cur ∧ cur.length = orig.length) →
      ((shortenGo oracle orig r i cur wc rounds).2 ≤ 5 ∧
       (shortenGo oracle orig r i cur wc rounds).1.length = orig.length ∧
       ((shortenGo oracle orig r i cur wc rounds).1 = orig ∨
        totalWords (shortenGo oracle orig r i cur wc rounds).1 ≤ 250 ∨
        (shortenGo oracle orig r i cur wc rounds).2 = 5) ∧
       ((shortenGo oracle orig r i cur wc rounds).1 ≠ orig →
        ∃ k prev, k < 5 ∧ oracle k prev = Except.ok (shortenGo oracle orig r i cur wc rounds).1 ∧
          (shortenGo oracle orig r i cur wc rounds).1.length = orig.length)) := by
  intro r
  induction r with
  | zero =>
      intro i cur wc rounds hri hrounds hwc hinv
      have hlen : cur.length = orig.length := by
        rcases hinv with rfl | ⟨k, prev, _, _, hl⟩
        · rfl
        · exact hl
      refine ⟨by simp [shortenGo]; omega, by simpa [shortenGo] using hlen, ?_, ?_⟩
      · right; right; simp [shortenGo]; omega
      · intro hne
        rcases hinv with rfl | ⟨k, prev, hk, hok, hl⟩
        · exact absurd (by simp [shortenGo]) hne
        · exact ⟨k, prev, by omega, by simpa [shortenGo] using hok,
            by simpa [shortenGo] using hl⟩
  | succ r ih =>
      intro i cur wc rounds hri hrounds hwc hinv
      have hlen : cur.length = orig.length := by
        rcases hinv with rfl | ⟨k, prev, _, _, hl⟩
        · rfl
        · exact hl
      by_cases hwcle : wc ≤ 250
      · refine ⟨?_, ?_, ?_, ?_⟩
        · simp [shortenGo, hwcle]; omega
        · simpa [shortenGo, hwcle] using hlen
        · right; left
          simp [shortenGo, hwcle, ← hwc]
        · intro hne
          rcases hinv with rfl | ⟨k, prev, hk, hok, hl⟩
          · exact absurd (by simp [shortenGo, hwcle]) hne
          · exact ⟨k, prev, by omega, by simpa [shortenGo, hwcle] using hok,
              by simpa [shortenGo, hwcle] using hl⟩
      · rcases horacle : oracle i cur with e | ns
        · refine ⟨?_, ?_, ?_, ?_⟩
          · simp [shortenGo, hwcle, horacle]; omega
          · simp [shortenGo, hwcle, horacle]
          · left; simp [shortenGo, hwcle, horacle]
          · intro hne
            exact absurd (by simp [shortenGo, hwcle, horacle]) hne
        · by_cases hns : ns.length ≠ orig.length
          · refine ⟨?_, ?_, ?_, ?_⟩
            · simp [shortenGo, hwcle, horacle, hns]; omega
            · simp [shortenGo, hwcle, horacle, hns]
            · left; simp [shortenGo, hwcle, horacle, hns]
            · intro hne
              exact absurd (by simp [shortenGo, hwcle, horacle, hns]) hne
          · have hres : shortenGo oracle orig (r + 1) i cur wc rounds =
                shortenGo oracle orig r (i + 1) ns (totalWords ns) (rounds + 1) := by
              simp [shortenGo, hwcle, horacle, hns]
            rw [hres]
            exact ih (i + 1) ns (totalWords ns) (rounds + 1) (by omega) (by omega) rfl
              (Or.inr ⟨i, cur, by omega, horacle, by omega⟩)

/-- C5: the post-hoc compression of `produce_run.main` calls the shortener
only when the initial word count exceeds 250 (otherwise the sentences pass
through untouched with zero rounds), makes at most 5 shortener calls,
always emits exactly as many sentences as it received (wrong-count and
failed responses revert to the pre-compression sentences), stops as soon as
the count drops to ≤250, and any emitted report different from the input is
a shortener response with the correct sentence count. -/
theorem C5_compression_loop (oracle : Nat → List String → Except Unit (List String))
    (s : List String) :
    (compressReport oracle s).2 ≤ 5 ∧
    (compressReport oracle s).1.length = s.length ∧
    (totalWords s ≤ 250 → compressReport oracle s = (s, 0)) ∧
    ((compressReport oracle s).1 = s ∨ totalWords (compressReport oracle s).1 ≤ 250 ∨
      (compressReport oracle s).2 = 5) ∧
    ((compressReport oracle s).1 ≠ s →
      ∃ k prev, k < 5 ∧ oracle k prev = Except.ok (compressReport oracle s).1 ∧
        (compressReport oracle s).1.length = s.length) := by
  by_cases h : 250 < totalWords s
  · have hres : compressReport oracle s = shortenGo oracle s 5 0 s (totalWords s) 0 := by
      simp [compressReport, h]
    obtain ⟨h1, h2, h3, h4⟩ :=
      shortenGo_master oracle s 5 0 s (totalWords s) 0 (by omega) rfl rfl (Or.inl rfl)
    rw [hres]
    exact ⟨h1, h2, fun hle => absurd hle (by omega), h3, h4⟩
  · have hres : compressReport oracle s = (s, 0) := by
      simp [compressReport, h]
    rw [hres]
    refine ⟨by omega, rfl, fun _ => rfl, Or.inl rfl, fun hne => absurd rfl hne⟩

/-- Witness for C5: a one-sentence, one-word report is under the budget, so
the loop is never invoked and the report passes through unchanged. -/
theorem C5_compression_loop_witness :
    compressReport (fun _ _ => Except.error ()) ["hi"] = (["hi"], 0) ∧
      (compressReport (fun _ _ => Except.error ()) ["hi"]).2 ≤ 5 :=
  ⟨(C5_compression_loop (fun _ _ => Except.error ()) ["hi"]).2.2.1 (by decide),
   (C5_compression_loop (fun _ _ => Except.error ()) ["hi"]).1⟩

theorem truncMarker_length : truncMarker.length = 26 := rfl

theorem truncMiddle_of_le (t : List Char) (m : Nat) (h : t.length ≤ m) :
    truncMiddle t m = t := by
  simp [truncMiddle, h]

theorem truncMiddle_length_of_lt (t : List Char) (m : Nat) (h1 : 1 ≤ m)
    (h2 : m < t.length) : (truncMiddle t m).length = m + 26 := by
  rw [truncMiddle, if_neg (by omega)]
  simp only [List.length_append, truncMarker_length, List.length_take]
  by_cases hpar : m % 2 = 0
  · have hk : ¬ (m / 2 = 0) := by omega
    rw [if_pos hpar, pySuffix, if_neg hk]
    simp only [List.length_drop]
    omega
  · rw [if_neg hpar, pySuffix, if_neg (by omega)]
    simp only [List.length_drop]
    omega

/-- C7 (amended): `_truncate_input` returns the input unmodified on attempt
0, and on attempt ≥1 returns it unmodified when the combined system-plus-
user length is within the character budget `(max_tokens − 1500) × 4`; when
over budget the system prompt is left untouched whenever it alone is within
half the budget, and the resulting messages' total character length is at
most the budget plus the 26-character elision marker — not the budget
itself, because `_truncate_middle` appends the marker on top of the kept
head and tail, overshooting its own limit by exactly 26 characters.
(The hypothesis keeps the budget ≥ 200; the call site uses
`max_tokens = 50000`, i.e. budget 194000.) -/
theorem C7_truncation (msgs : List (String × List Char)) (maxTokens attempt : Nat)
    (hbudget : 200 ≤ (maxTokens - 1500) * 4) :
    (attempt = 0 → truncateInput msgs maxTokens attempt = msgs) ∧
    (1 ≤ attempt →
      (findRole msgs "system").length + (findRole msgs "user").length ≤
        (maxTokens - 1500) * 4 →
      truncateInput msgs maxTokens attempt = msgs) ∧
    (1 ≤ attempt →
      (findRole msgs "system").length ≤ (maxTokens - 1500) * 4 / 2 →
      findRole (truncateInput msgs maxTokens attempt) "system" = findRole msgs "system") ∧
    (1 ≤ attempt →
      (maxTokens - 1500) * 4 < (findRole msgs "system").length + (findRole msgs "user").length →
      totalChars (truncateInput msgs maxTokens attempt) ≤ (maxTokens - 1500) * 4 + 26) := by
  by_cases h0 : attempt = 0
  · refine ⟨fun _ => by simp [truncateInput, h0], ?_, ?_, ?_⟩
    · intro h1; omega
    · intro h1; omega
    · intro h1; omega
  · have hne : ¬ (attempt = 0) := h0
    refine ⟨fun h => absurd h hne, ?_, ?_, ?_⟩
    · intro _ hle
      simp only [truncateInput, if_neg hne]
      rw [if_pos hle]
    · intro _ hsys
      by_cases hle : (findRole msgs "system").length + (findRole msgs "user").length ≤
          (maxTokens - 1500) * 4
      · simp only [truncateInput, if_neg hne]
        rw [if_pos hle]
      · simp only [truncateInput, if_neg hne]
        rw [if_neg hle, if_neg (by omega)]
        simp [findRole]
    · intro _ hover
      have hlefalse : ¬ ((findRole msgs "system").length + (findRole msgs "user").length ≤
          (maxTokens - 1500) * 4) := by omega
      simp only [truncateInput, if_neg hne]
      rw [if_neg hlefalse]
      by_cases hsys : (maxTokens - 1500) * 4 / 2 < (findRole msgs "system").length
      · rw [if_pos hsys]
        have hs2 : (truncMiddle (findRole msgs "system") ((maxTokens - 1500) * 4 / 2)).length =
            (maxTokens - 1500) * 4 / 2 + 26 :=
          truncMiddle_length_of_lt _ _ (by omega) hsys
        by_cases husr : (findRole msgs "user").length ≤
            (maxTokens - 1500) * 4 -
              (truncMiddle (findRole msgs "system") ((maxTokens - 1500) * 4 / 2)).length
        · rw [truncMiddle_of_le _ _ husr]
          simp only [totalChars, List.map, List.sum_cons, List.sum_nil]
          omega
        · have hu : (truncMiddle (findRole msgs "user")
              ((maxTokens - 1500) * 4 -
                (truncMiddle (findRole msgs "system") ((maxTokens - 1500) * 4 / 2)).length)).length =
              ((maxTokens - 1500) * 4 -
                (truncMiddle (findRole msgs "system") ((maxTokens - 1500) * 4 / 2)).length) + 26 :=
            truncMiddle_length_of_lt _ _ (by omega) (by omega)
          simp only [totalChars, List.map, List.sum_cons, List.sum_nil]
          omega
      · rw [if_neg hsys]
        have humax : max 100 ((maxTokens - 1500) * 4 - (findRole msgs "system").length) =
            (maxTokens - 1500) * 4 - (findRole msgs "system").length := by omega
        have husr : ¬ ((findRole msgs "user").length ≤
            max 100 ((maxTokens - 1500) * 4 - (findRole msgs "system").length)) := by omega
        have hu : (truncMiddle (findRole msgs "user")
            (max 100 ((maxTokens - 1500) * 4 - (findRole msgs "system").length))).length =
            (max 100 ((maxTokens - 1500) * 4 - (findRole msgs "system").length)) + 26 :=
          truncMiddle_length_of_lt _ _ (by omega) (by omega)
        simp only [totalChars, List.map, List.sum_cons, List.sum_nil]
        omega

/-- Witness for C7: with the call-site token budget 50000, a short message
list is returned unchanged both on attempt 0 and, being within budget, on
attempt 1. -/
theorem C7_truncation_witness :
    truncateInput [("system", ['a'])] 50000 0 = [("system", ['a'])] ∧
      truncateInput [("system", ['a'])] 50000 1 = [("system", ['a'])] :=
  ⟨(C7_truncation [("system", ['a'])] 50000 0 (by norm_num)).1 rfl,
   (C7_truncation [("system", ['a'])] 50000 1 (by norm_num)).2.1 (by norm_num) (by decide)⟩

set_option maxRecDepth 4000 in
/-- Counterexample for C7 as stated: attempt 1, budget 200 (`max_tokens`
1550), empty system prompt and a 201-character user content: the truncated
output has 226 characters, exceeding the budget — the elision marker makes
the result overshoot, so the resulting messages do not fit within the
budget. -/
theorem C7_counterexample :
    (1550 - 1500) * 4 <
      totalChars (truncateInput [("system", []), ("user", List.replicate 201 'a')] 1550 1) := by
  decide

theorem genGo_failure_all {α : Type} (oracle : Nat → GenOutcome α) (n : Nat) :
    ∀ r attempt, attempt + r = n → 1 ≤ r →
      (∀ k, attempt ≤ k → k < n → ∀ b, oracle k ≠ GenOutcome.ok b) →
      genGo oracle n r attempt ((List.range attempt).map (fun j => 2 ^ j)) =
        GenResult.failure (errOf (oracle (n - 1))) ((List.range (n - 1)).map (fun j => 2 ^ j)) := by
  intro r
  induction r with
  | zero => intro attempt _ h1 _; omega
  | succ r ih =>
      intro attempt hsum _ hfail
      by_cases hlast : attempt = n - 1
      · rcases hout : oracle attempt with _ | c | _ | b
        · have hr : r = 0 := by omega
          subst hr
          simp only [genGo, hout, if_pos hlast]
          rw [← hlast, hout]
          rfl
        · have hr : r = 0 := by omega
          subst hr
          simp only [genGo, hout, if_pos hlast]
          rw [← hlast, hout]
          rfl
        · have hr : r = 0 := by omega
          subst hr
          simp only [genGo, hout, if_pos hlast]
          rw [← hlast, hout]
          rfl
        · exact absurd hout (hfail attempt le_rfl (by omega) b)
      · have hstep : (List.range attempt).map (fun j => 2 ^ j) ++ [2 ^ attempt] =
            (List.range (attempt + 1)).map (fun j => 2 ^ j) := by
          rw [List.range_succ, List.map_append]
          rfl
        have hrec := ih (attempt + 1) (by omega)
          (by omega)
          (fun k hk1 hk2 b => hfail k (by omega) hk2 b)
        rcases hout : oracle attempt with _ | c | _ | b
        · simp only [genGo, hout, if_neg hlast]
          rw [hstep]
          exact hrec
        · simp only [genGo, hout, if_neg hlast]
          rw [hstep]
          exact hrec
        · simp only [genGo, hout, if_neg hlast]
          rw [hstep]
          exact hrec
        · exact absurd hout (hfail attempt le_rfl (by omega) b)

theorem genGo_success_inv {α : Type} (oracle : Nat → GenOutcome α) (n : Nat) :
    ∀ r attempt a out, attempt + r = n →
      genGo oracle n r attempt ((List.range attempt).map (fun j => 2 ^ j)) =
        GenResult.success a out →
      ∃ k, attempt ≤ k ∧ k < n ∧ oracle k = GenOutcome.ok a ∧
        out = (List.range k).map (fun j => 2 ^ j) ∧
        (∀ j, attempt ≤ j → j < k → ∀ b, oracle j ≠ GenOutcome.ok b) := by
  intro r
  induction r with
  | zero => intro attempt a out _ h; simp [genGo] at h
  | succ r ih =>
      intro attempt a out hsum h
      have hstep : (List.range attempt).map (fun j => 2 ^ j) ++ [2 ^ attempt] =
          (List.range (attempt + 1)).map (fun j => 2 ^ j) := by
        rw [List.range_succ, List.map_append]
        rfl
      rcases hout : oracle attempt with _ | c | _ | b
      · simp only [genGo, hout] at h
        by_cases hlast : attempt = n - 1
        · rw [if_pos hlast] at h; simp at h
        · rw [if_neg hlast, hstep] at h
          obtain ⟨k, hk1, hk2, hk3, hk4, hk5⟩ := ih (attempt + 1) a out (by omega) h
          refine ⟨k, by omega, hk2, hk3, hk4, ?_⟩
          intro j hj1 hj2 b hb
          rcases Nat.eq_or_lt_of_le hj1 with rfl | hj3
          · rw [hout] at hb; cases hb
          · exact hk5 j hj3 hj2 b hb
      · simp only [genGo, hout] at h
        by_cases hlast : attempt = n - 1
        · rw [if_pos hlast] at h; simp at h
        · rw [if_neg hlast, hstep] at h
          obtain ⟨k, hk1, hk2, hk3, hk4, hk5⟩ := ih (attempt + 1) a out (by omega) h
          refine ⟨k, by omega, hk2, hk3, hk4, ?_⟩
          intro j hj1 hj2 b hb
          rcases Nat.eq_or_lt_of_le hj1 with rfl | hj3
          · rw [hout] at hb; cases hb
          · exact hk5 j hj3 hj2 b hb
      · simp only [genGo, hout] at h
        by_cases hlast : attempt = n - 1
        · rw [if_pos hlast] at h; simp at h
        · rw [if_neg hlast, hstep] at h
          obtain ⟨k, hk1, hk2, hk3, hk4, hk5⟩ := ih (attempt + 1) a out (by omega) h
          refine ⟨k, by omega, hk2, hk3, hk4, ?_⟩
          intro j hj1 hj2 b hb
          rcases Nat.eq_or_lt_of_le hj1 with rfl | hj3
          · rw [hout] at hb; cases hb
          · exact hk5 j hj3 hj2 b hb
      · simp only [genGo, hout] at h
        obtain ⟨ha, hout2⟩ := GenResult.success.inj h
        subst ha
        subst hout2
        exact ⟨attempt, le_rfl, by omega, hout, rfl, fun j hj1 hj2 b hb => by omega⟩

/-- C8 (amended): `generate_structured` returns successfully only with a
validated instance — the returned value is the outcome of the first
attempt whose response validated, and each preceding failed attempt slept
`2 ^ attempt` (so the recorded backoff sleeps are exactly
`2^0, …, 2^(k-1)`); when every attempt fails and `max_retries ≥ 1`, it
raises the terminal error of the final attempt, having slept after each of
the first `max_retries - 1` failures — but that terminal error embeds the
last response content only when the final failure is a JSON-parse failure
(a validation or transient failure embeds the underlying exception
instead), and with `max_retries = 0` the loop never runs and the function
returns Python `None` rather than raising. -/
theorem C8_generate_structured (α : Type) (oracle : Nat → GenOutcome α) (n : Nat) :
    (∀ a out, generate_structured oracle n = GenResult.success a out →
      ∃ k, k < n ∧ oracle k = GenOutcome.ok a ∧
        out = (List.range k).map (fun j => 2 ^ j) ∧
        (∀ j, j < k → ∀ b, oracle j ≠ GenOutcome.ok b)) ∧
    (1 ≤ n → (∀ k, k < n → ∀ b, oracle k ≠ GenOutcome.ok b) →
      generate_structured oracle n =
        GenResult.failure (errOf (oracle (n - 1)))
          ((List.range (n - 1)).map (fun j => 2 ^ j))) ∧
    generate_structured oracle 0 = GenResult.noReturn := by
  refine ⟨?_, ?_, rfl⟩
  · intro a out h
    have h0 : genGo oracle n n 0 ((List.range 0).map (fun j => 2 ^ j)) =
        GenResult.success a out := by simpa [generate_structured] using h
    obtain ⟨k, _, hk2, hk3, hk4, hk5⟩ := genGo_success_inv oracle n n 0 a out (by omega) h0
    exact ⟨k, hk2, hk3, hk4, fun j hj b => hk5 j (by omega) hj b⟩
  · intro hn hfail
    have := genGo_failure_all oracle n n 0 (by omega) (by omega)
      (fun k _ hk2 b => hfail k hk2 b)
    simpa [generate_structured] using this

/-- Witness for C8: two attempts that both fail Pydantic validation raise
the terminal error of the final attempt after one backoff sleep. -/
theorem C8_generate_structured_witness :
    generate_structured (fun _ => GenOutcome.valErr : Nat → GenOutcome Nat) 2 =
      GenResult.failure
        (errOf ((fun _ => GenOutcome.valErr : Nat → GenOutcome Nat) (2 - 1)))
        ((List.range (2 - 1)).map (fun j => 2 ^ j)) :=
  (C8_generate_structured Nat (fun _ => GenOutcome.valErr) 2).2.1 (by omega)
    (fun k hk b hb => GenOutcome.noConfusion hb)

/-- Counterexample for C8 as stated: a single attempt failing Pydantic
validation raises a terminal error that does not embed the response
content (line 258 embeds the exception only), and `max_retries = 0` makes
the function fall through and return `None` instead of raising. -/
theorem C8_counterexample :
    generate_structured (fun _ => GenOutcome.valErr : Nat → GenOutcome Nat) 1 =
      GenResult.failure TermErr.validationFailure [] ∧
    embedsRawContent TermErr.validationFailure = false ∧
    generate_structured (fun _ => GenOutcome.valErr : Nat → GenOutcome Nat) 0 =
      GenResult.noReturn :=
  ⟨rfl, rfl, rfl⟩

theorem replaceNLwithSpace_no_newline (t : List Char) : '\n' ∉ replaceNLwithSpace t := by
  intro hmem
  rw [replaceNLwithSpace, List.mem_map] at hmem
  obtain ⟨c, _, heq⟩ := hmem
  by_cases h : c = '\n'
  · rw [if_pos h] at heq
    exact absurd heq (by decide)
  · rw [if_neg h] at heq
    exact h heq

theorem mem_of_mem_removeCR {x : Char} {t : List Char} (h : x ∈ removeCR t) : x ∈ t :=
  (List.mem_filter.mp h).1

theorem mem_collapseWs_bounded {x : Char} :
    ∀ n : Nat, ∀ t : List Char, t.length ≤ n → x ∈ collapseWs t → x = ' ' ∨ x ∈ t := by
  intro n
  induction n with
  | zero =>
      intro t ht hx
      have hnil : t = [] := List.length_eq_zero.mp (by omega)
      subst hnil
      simp [collapseWs] at hx
  | succ n ih =>
      intro t ht hx
      cases t with
      | nil => simp [collapseWs] at hx
      | cons c rest =>
          rw [collapseWs] at hx
          by_cases h : pyIsSpace c = true
          · rw [if_pos h] at hx
            rcases List.mem_cons.mp hx with heq | hx2
            · exact Or.inl heq
            · have hlen : (rest.dropWhile pyIsSpace).length ≤ n := by
                have := (List.dropWhile_suffix pyIsSpace (l := rest)).sublist.length_le
                simp only [List.length_cons] at ht
                omega
              rcases ih (rest.dropWhile pyIsSpace) hlen hx2 with h1 | h2
              · exact Or.inl h1
              · exact Or.inr (List.mem_cons_of_mem c
                  ((List.dropWhile_suffix pyIsSpace).sublist.subset h2))
          · rw [if_neg h] at hx
            rcases List.mem_cons.mp hx with heq | hx2
            · exact Or.inr (heq ▸ List.mem_cons_self c rest)
            · have hlen : rest.length ≤ n := by
                simp only [List.length_cons] at ht
                omega
              rcases ih rest hlen hx2 with h1 | h2
              · exact Or.inl h1
              · exact Or.inr (List.mem_cons_of_mem c h2)

theorem mem_of_mem_stripWs {x : Char} {t : List Char} (h : x ∈ stripWs t) : x ∈ t := by
  rw [stripWs, List.mem_reverse] at h
  have h2 := (List.dropWhile_suffix pyIsSpace).sublist.subset h
  rw [List.mem_reverse] at h2
  exact (List.dropWhile_suffix pyIsSpace).sublist.subset h2

theorem contentAtFenceCheck_no_newline (t : List Char) : '\n' ∉ contentAtFenceCheck t := by
  intro hmem
  have h1 := mem_of_mem_stripWs hmem
  rcases mem_collapseWs_bounded (removeCR (replaceNLwithSpace t)).length
      (removeCR (replaceNLwithSpace t)) le_rfl h1 with h2 | h2
  · exact absurd h2 (by decide)
  · exact replaceNLwithSpace_no_newline t (mem_of_mem_removeCR h2)

theorem fencedJsonMatch_has_newline {s : List Char} (h : fencedJsonMatch s) : '\n' ∈ s := by
  obtain ⟨pre, ws, body, post, _, heq⟩ := h
  subst heq
  simp

theorem bareFenceMatch_has_newline {s : List Char} (h : bareFenceMatch s) : '\n' ∈ s := by
  obtain ⟨pre, ws, body, post, _, heq⟩ := h
  subst heq
  simp

/-- C10: because line 111 replaces every newline by a space (and deletes
carriage returns) before the code-fence regular expressions are applied,
and neither the whitespace-run collapse nor the strip can introduce a
newline, the content reaching line 115 never contains `\n` — so the
`(three backticks)json` fence search and the bare fence search, which both
require two literal newlines, never match on any input, and fenced model
output can only be handled by the later brace-span, bracket-span and
repair logic. -/
theorem C10_fence_branches_never_match (t : List Char) :
    '\n' ∉ contentAtFenceCheck t ∧
    ¬ fencedJsonMatch (contentAtFenceCheck t) ∧
    ¬ bareFenceMatch (contentAtFenceCheck t) :=
  ⟨contentAtFenceCheck_no_newline t,
   fun h => contentAtFenceCheck_no_newline t (fencedJsonMatch_has_newline h),
   fun h => contentAtFenceCheck_no_newline t (bareFenceMatch_has_newline h)⟩
